import Mathlib

set_option exponentiation.threshold 1100
set_option maxRecDepth 4000

/-!
Verification of the expression-rendering core: a value/tree model with a
constrained floating-point type (`PositiveFiniteF64`) and a recursive
renderer (`translate`) mapping expression trees to text.

Floating-point doubles are modelled by their 64-bit patterns (a `Nat`
below `2 ^ 64`), decoded exactly into rationals; IEEE-754 comparisons on
non-NaN values are exact rational comparisons, which this model uses.
-/

namespace KaitaiTestgen

/-! ## IEEE-754 binary64, bit-level -/

/-- Sign bit of a 64-bit float pattern. -/
def f64Sign (b : Nat) : Nat := b / 2 ^ 63 % 2

/-- Biased exponent field (11 bits) of a 64-bit float pattern. -/
def f64Exp (b : Nat) : Nat := b / 2 ^ 52 % 2 ^ 11

/-- Mantissa field (52 bits) of a 64-bit float pattern. -/
def f64Mant (b : Nat) : Nat := b % 2 ^ 52

/-- `f64::is_nan`: exponent field all ones and nonzero mantissa. -/
def f64IsNan (b : Nat) : Bool := f64Exp b == 2047 && f64Mant b != 0

/-- `f64::is_infinite`: exponent field all ones and zero mantissa. -/
def f64IsInfinite (b : Nat) : Bool := f64Exp b == 2047 && f64Mant b == 0

/-- `f64::is_finite`: exponent field below all ones. -/
def f64IsFinite (b : Nat) : Bool := f64Exp b != 2047

/-- `f64::is_sign_positive`: sign bit clear. -/
def f64IsSignPositive (b : Nat) : Bool := f64Sign b == 0

/-- Scaled significand of a finite pattern: the magnitude of the decoded
value is `f64Signif b / 2 ^ 1074`. -/
def f64Signif (b : Nat) : Nat :=
  if f64Exp b = 0 then f64Mant b else (2 ^ 52 + f64Mant b) * 2 ^ (f64Exp b - 1)

/-- The significand decoding with the exponent field read without its
11-bit truncation; below `2 ^ 63` it agrees with `f64Signif` and is
strictly monotone in the bit pattern. -/
def sigLin (b : Nat) : Nat :=
  if b / 2 ^ 52 = 0 then b % 2 ^ 52 else (2 ^ 52 + b % 2 ^ 52) * 2 ^ (b / 2 ^ 52 - 1)

/-- Exact rational value of a finite 64-bit float pattern. -/
def f64ToRat (b : Nat) : ℚ :=
  (if f64Sign b = 1 then (-1 : ℚ) else 1) * (f64Signif b : ℚ) / 2 ^ 1074

/-- IEEE `==` on doubles: false if either side is NaN, exact value
comparison otherwise. -/
def f64Eq (a b : Nat) : Bool :=
  !f64IsNan a && !f64IsNan b && decide (f64ToRat a = f64ToRat b)

/-- IEEE `<=` on doubles. -/
def f64Le (a b : Nat) : Bool :=
  !f64IsNan a && !f64IsNan b && decide (f64ToRat a ≤ f64ToRat b)

/-- IEEE `<` on doubles. -/
def f64Lt (a b : Nat) : Bool :=
  !f64IsNan a && !f64IsNan b && decide (f64ToRat a < f64ToRat b)

/-- `f64::partial_cmp`: no ordering when a NaN is involved, otherwise the
exact ordering of the decoded values. -/
def f64Cmp (a b : Nat) : Option Ordering :=
  if f64IsNan a || f64IsNan b then none
  else some (compare (f64ToRat a) (f64ToRat b))

/-! ## `PositiveFiniteF64` (src/ast/utils.rs) -/

/-- Error classification returned by `TryFrom<f64> for PositiveFiniteF64`. -/
inductive InvalidFloatError where
  | Negative
  | NonFinite
deriving DecidableEq, Repr

/-- A 64-bit double constrained, at construction, to be finite with a
positive sign bit. `value` holds the bit pattern of the wrapped double. -/
structure PositiveFiniteF64 where
  value : Nat
  size_ok : value < 2 ^ 64
  finite : f64IsFinite value = true
  sign_ok : f64IsSignPositive value = true

/-- `TryFrom<f64>::try_from`: finiteness is checked first (else
`NonFinite`), then the sign bit (else `Negative`). -/
def PositiveFiniteF64.try_from (b : Nat) (hb : b < 2 ^ 64) :
    Except InvalidFloatError PositiveFiniteF64 :=
  if hf : f64IsFinite b = true then
    if hs : f64IsSignPositive b = true then
      .ok ⟨b, hb, hf, hs⟩
    else
      .error .Negative
  else
    .error .NonFinite

/-- `Ord::cmp`, which is `partial_cmp(other).unwrap()` on the wrapped
doubles; the `unwrap` is modelled by keeping the `Option`, whose
totality is proved separately. -/
def PositiveFiniteF64.cmp (a b : PositiveFiniteF64) : Option Ordering :=
  f64Cmp a.value b.value

/-- The derived `PartialEq`, comparing the wrapped doubles with IEEE `==`. -/
def PositiveFiniteF64.eqv (a b : PositiveFiniteF64) : Bool :=
  f64Eq a.value b.value

/-- `Hash::hash`: feeds the raw bits of the wrapped double to the hasher
state (the hasher is abstracted as a function on the fed bits). -/
def PositiveFiniteF64.hash (a : PositiveFiniteF64) (state : Nat → Nat) : Nat :=
  state a.value

/-! ## AST (src/ast.rs) -/

/-- Unary operator tags. -/
inductive UnaryOp where
  | Neg
  | Not
  | Inv
deriving DecidableEq, Repr

/-- Binary operator tags. -/
inductive BinaryOp where
  | Add
  | Sub
  | Mul
  | Div
  | Rem
  | Eq
  | Ne
  | Lt
  | Le
  | Gt
  | Ge
  | And
  | Or
  | BitOr
  | BitXor
  | BitAnd
  | Shl
  | Shr
deriving DecidableEq, Repr

/-- Expression nodes, with the source variant names lowercased so that
they do not shadow their payload types (and `Attribute`
renamed `attrib`, since `attribute` is a keyword). `int` carries the non-negative
integer payload as a `Nat`; `float` carries a constrained float value. -/
inductive Expr where
  | int (x : Nat)
  | float (x : PositiveFiniteF64)
  | str (x : String)
  | bool (x : Bool)
  | enumMember (enum_path : List String) (label : String)
  | list (items : List Expr)
  | name (n : String)
  | attrib (value : Expr) (attr_name : String)
  | methodCall (value : Expr) (method_name : String) (args : List Expr)
  | unaryOp (op : UnaryOp) (v : Expr)
  | binaryOp (l : Expr) (op : BinaryOp) (r : Expr)
  | condOp (cond : Expr) (if_true : Expr) (if_false : Expr)
  | subscript (value : Expr) (idx : Expr)

/-! ## Renderer (src/translator.rs) -/

/-- `should_format_float_with_exponent`: exponential notation unless the
value is zero or lies in the half-open range from the double literal
`1e-4` (bits `0x3F1A36E2EB1C432D`) up to the double literal `1e16`
(bits `0x4341C37937E08000`). -/
def should_format_float_with_exponent (value : Nat) : Bool :=
  if f64Eq value 0 then
    false
  else
    !(f64Le 0x3F1A36E2EB1C432D value && f64Lt value 0x4341C37937E08000)

/-- Modelled from the spec: steps 3 and 4 of the float literal formatting
policy (the shortest round-trippable plain-decimal and exponential
renderings of a double) are Rust standard-library behavior
(`f64::to_string` and the `LowerExp` formatter) whose algorithm is not
part of this repository, so the two formatters are abstracted as
arbitrary functions of the double being rendered. -/
structure FloatFmt where
  plain : Nat → String
  expo : Nat → String

/-- `chars().all(|ch| ch.is_ascii_digit())` on a string. -/
def is_all_ascii_digits (s : String) : Bool :=
  s.data.all (fun ch => ch.isDigit)

/-- The single-quote character. -/
def singleQuote : Char := Char.ofNat 39

/-- The one-character string holding a single quote. -/
def singleQuoteStr : String := String.singleton singleQuote

/-- `translate_unary_op`. -/
def translate_unary_op : UnaryOp → String
  | .Neg => "-"
  | .Not => "not "
  | .Inv => "~"

/-- `translate_binary_op`. -/
def translate_binary_op : BinaryOp → String
  | .Add => "+"
  | .Sub => "-"
  | .Mul => "*"
  | .Div => "/"
  | .Rem => "%"
  | .Eq => "=="
  | .Ne => "!="
  | .Lt => "<"
  | .Le => "<="
  | .Gt => ">"
  | .Ge => ">="
  | .And => "and"
  | .Or => "or"
  | .BitOr => "|"
  | .BitXor => "^"
  | .BitAnd => "&"
  | .Shl => "<<"
  | .Shr => ">>"

mutual

/-- `translate`, parameterized by the abstract float formatter. The
`assert!` rejecting strings that contain a single quote is modelled by
returning `none`; every other arm is total, and child renderings are
sequenced in source order so that a failing child fails the parent. -/
def translate (fmt : FloatFmt) : Expr → Option String
  | .int x => some (toString x)
  | .float x =>
    let value := x.value
    let formatted :=
      if should_format_float_with_exponent value then fmt.expo value
      else fmt.plain value
    if is_all_ascii_digits formatted then some (formatted ++ ".0")
    else some formatted
  | .str x =>
    if x.data.contains singleQuote then none
    else some (singleQuoteStr ++ x ++ singleQuoteStr)
  | .bool x => some (toString x)
  | .enumMember enum_path label =>
    some (String.intercalate "::" (enum_path ++ [label]))
  | .list items => do
    let parts ← translateList fmt items
    some ("[" ++ String.intercalate ", " parts ++ "]")
  | .name name => some name
  | .attrib value attr_name => do
    let v ← translate fmt value
    some (v ++ "." ++ attr_name)
  | .methodCall value method_name args => do
    let v ← translate fmt value
    let a ← translateList fmt args
    some (v ++ "." ++ method_name ++ "(" ++ String.intercalate ", " a ++ ")")
  | .unaryOp op v => do
    let s ← translate fmt v
    some ("(" ++ translate_unary_op op ++ s ++ ")")
  | .binaryOp l op r => do
    let ls ← translate fmt l
    let rs ← translate fmt r
    some ("(" ++ ls ++ " " ++ translate_binary_op op ++ " " ++ rs ++ ")")
  | .condOp cond if_true if_false => do
    let c ← translate fmt cond
    let t ← translate fmt if_true
    let f ← translate fmt if_false
    some ("(" ++ c ++ " ? " ++ t ++ " : " ++ f ++ ")")
  | .subscript value idx => do
    let v ← translate fmt value
    let i ← translate fmt idx
    some (v ++ "[" ++ i ++ "]")
termination_by structural e => e

/-- Renders a list of expressions in order, failing if any element fails. -/
def translateList (fmt : FloatFmt) : List Expr → Option (List String)
  | [] => some []
  | e :: es => do
    let s ← translate fmt e
    let ss ← translateList fmt es
    some (s :: ss)
termination_by structural es => es

end

/-- Whether the outermost node is a UnaryOp, BinaryOp or CondOp. -/
def Expr.isOpNode : Expr → Bool
  | .unaryOp _ _ => true
  | .binaryOp _ _ _ => true
  | .condOp _ _ _ => true
  | _ => false

mutual

/-- Whether the tree contains a string literal with an embedded single
quote (the only input the renderer rejects). -/
def hasQuotedStr : Expr → Bool
  | .int _ => false
  | .float _ => false
  | .str s => s.data.contains singleQuote
  | .bool _ => false
  | .enumMember _ _ => false
  | .name _ => false
  | .list items => hasQuotedStrList items
  | .attrib value _ => hasQuotedStr value
  | .methodCall value _ args => hasQuotedStr value || hasQuotedStrList args
  | .unaryOp _ v => hasQuotedStr v
  | .binaryOp l _ r => hasQuotedStr l || hasQuotedStr r
  | .condOp cond if_true if_false =>
    hasQuotedStr cond || hasQuotedStr if_true || hasQuotedStr if_false
  | .subscript value idx => hasQuotedStr value || hasQuotedStr idx
termination_by structural e => e

/-- Whether some element of the list contains a quoted string literal. -/
def hasQuotedStrList : List Expr → Bool
  | [] => false
  | e :: es => hasQuotedStr e || hasQuotedStrList es
termination_by structural es => es

end

/-- The double positive zero. -/
def pffZero : PositiveFiniteF64 := ⟨0, by norm_num, by decide, by decide⟩

/-- The double 13.0 (bit pattern 0x402A000000000000). -/
def pffThirteen : PositiveFiniteF64 := ⟨0x402A000000000000, by norm_num, by decide, by decide⟩

/-- A formatter returning a fixed string, used to instantiate theorems at
concrete inputs. -/
def constFmt (s : String) : FloatFmt := ⟨fun _ => s, fun _ => s⟩

/-! ## Arithmetic facts about the binary64 decoding -/

theorem sigLin_lt_succ (n : Nat) : sigLin n < sigLin (n + 1) := by
  have hmul : ∀ x y k : Nat, x < y → x * 2 ^ k < y * 2 ^ k :=
    fun x y k h => (Nat.mul_lt_mul_right (Nat.two_pow_pos k)).mpr h
  unfold sigLin
  rcases Nat.lt_or_ge (n % 2 ^ 52 + 1) (2 ^ 52) with hc | hc
  · have hdiv : (n + 1) / 2 ^ 52 = n / 2 ^ 52 := by omega
    have hmod : (n + 1) % 2 ^ 52 = n % 2 ^ 52 + 1 := by omega
    rw [hdiv, hmod]
    by_cases he : n / 2 ^ 52 = 0
    · rw [if_pos he, if_pos he]; omega
    · rw [if_neg he, if_neg he]
      exact hmul _ _ _ (by omega)
  · have hdiv : (n + 1) / 2 ^ 52 = n / 2 ^ 52 + 1 := by omega
    have hmod : (n + 1) % 2 ^ 52 = 0 := by omega
    have hne : ¬ (n / 2 ^ 52 + 1 = 0) := by omega
    rw [hdiv, hmod]
    by_cases he : n / 2 ^ 52 = 0
    · rw [if_pos he, if_neg hne, he]
      norm_num
      omega
    · rw [if_neg he, if_neg hne]
      have e1 : n / 2 ^ 52 = (n / 2 ^ 52 - 1) + 1 := by omega
      calc (2 ^ 52 + n % 2 ^ 52) * 2 ^ (n / 2 ^ 52 - 1)
          < 2 ^ 53 * 2 ^ (n / 2 ^ 52 - 1) := hmul _ _ _ (by omega)
        _ = (2 ^ 52 + 0) * 2 ^ ((n / 2 ^ 52 - 1) + 1) := by rw [pow_succ]; ring_nf
        _ = (2 ^ 52 + 0) * 2 ^ (n / 2 ^ 52 + 1 - 1) := by
            rw [Nat.add_sub_cancel, ← e1]

theorem sigLin_strictMono : StrictMono sigLin :=
  strictMono_nat_of_lt_succ sigLin_lt_succ

theorem f64Signif_eq_sigLin (b : Nat) (hb : b < 2 ^ 63) : f64Signif b = sigLin b := by
  have h : f64Exp b = b / 2 ^ 52 := by
    unfold f64Exp; omega
  unfold f64Signif sigLin f64Mant
  rw [h]

theorem f64ToRat_eq (b : Nat) (hb : b < 2 ^ 63) :
    f64ToRat b = (sigLin b : ℚ) / 2 ^ 1074 := by
  have hs : f64Sign b = 0 := by unfold f64Sign; omega
  unfold f64ToRat
  rw [hs, f64Signif_eq_sigLin b hb]
  norm_num

theorem f64ToRat_lt_of_lt {a b : Nat} (hb : b < 2 ^ 63) (h : a < b) :
    f64ToRat a < f64ToRat b := by
  rw [f64ToRat_eq a (by omega), f64ToRat_eq b hb]
  have hpos : (0 : ℚ) < 2 ^ 1074 := by positivity
  exact (div_lt_div_iff_of_pos_right hpos).mpr (by exact_mod_cast sigLin_strictMono h)

theorem f64ToRat_le_of_le {a b : Nat} (hb : b < 2 ^ 63) (h : a ≤ b) :
    f64ToRat a ≤ f64ToRat b := by
  rcases Nat.lt_or_ge a b with h2 | h2
  · exact le_of_lt (f64ToRat_lt_of_lt hb h2)
  · have : a = b := by omega
    rw [this]

theorem f64ToRat_inj {a b : Nat} (ha : a < 2 ^ 63) (hb : b < 2 ^ 63)
    (h : f64ToRat a = f64ToRat b) : a = b := by
  rcases Nat.lt_trichotomy a b with h2 | h2 | h2
  · exact absurd h (ne_of_lt (f64ToRat_lt_of_lt hb h2))
  · exact h2
  · exact absurd h.symm (ne_of_lt (f64ToRat_lt_of_lt ha h2))

theorem f64IsNan_eq_false_of_finite {b : Nat} (h : f64IsFinite b = true) :
    f64IsNan b = false := by
  unfold f64IsFinite at h
  simp only [bne_iff_ne, ne_eq] at h
  simp [f64IsNan, h]

theorem PositiveFiniteF64.value_lt_two_pow_63 (a : PositiveFiniteF64) :
    a.value < 2 ^ 63 := by
  have h1 := a.size_ok
  have h2 := a.sign_ok
  simp only [f64IsSignPositive, f64Sign, beq_iff_eq] at h2
  omega

/-! ## Claim theorems -/

/-- Claim C1: constructing a constrained float from a double yields
`NonFinite` exactly when the input is NaN or infinite, `Negative` exactly
when it is finite with its sign bit set (negative zero included), and
succeeds (wrapping the input verbatim) exactly when it is finite with a
positive sign bit; the finiteness check comes first. -/
theorem try_from_classification (b : Nat) (hb : b < 2 ^ 64) :
    (PositiveFiniteF64.try_from b hb = .error .NonFinite ↔
      (f64IsNan b = true ∨ f64IsInfinite b = true))
    ∧ (PositiveFiniteF64.try_from b hb = .error .Negative ↔
      (f64IsFinite b = true ∧ f64IsSignPositive b = false))
    ∧ ((∃ x : PositiveFiniteF64, PositiveFiniteF64.try_from b hb = .ok x ∧ x.value = b) ↔
      (f64IsFinite b = true ∧ f64IsSignPositive b = true)) := by
  have hclass : f64IsFinite b = false ↔ (f64IsNan b = true ∨ f64IsInfinite b = true) := by
    simp only [f64IsFinite, f64IsNan, f64IsInfinite, Bool.and_eq_true, bne_eq_false_iff_eq,
      bne_iff_ne, ne_eq, beq_iff_eq]
    tauto
  unfold PositiveFiniteF64.try_from
  split_ifs with hf hs
  · refine ⟨iff_of_false (by simp) ?_, iff_of_false (by simp) ?_,
      iff_of_true ⟨⟨b, hb, hf, hs⟩, rfl, rfl⟩ ⟨hf, hs⟩⟩
    · rw [← hclass]
      simp [hf]
    · simp [hs]
  · refine ⟨iff_of_false (by simp) ?_, iff_of_true rfl ⟨hf, by simpa using hs⟩,
      iff_of_false ?_ (by simp [hs])⟩
    · rw [← hclass]
      simp [hf]
    · rintro ⟨x, hx, -⟩
      exact absurd hx (by simp)
  · have hfin : f64IsFinite b = false := by simpa using hf
    refine ⟨iff_of_true rfl (hclass.mp hfin), iff_of_false ?_ (by simp [hfin]),
      iff_of_false ?_ (by simp [hfin])⟩
    · simp
    · rintro ⟨x, hx, -⟩
      exact absurd hx (by simp)

/-- Witness for C1: a negative NaN is classified `NonFinite`, and negative
zero is classified `Negative`. -/
theorem try_from_classification_witness :
    PositiveFiniteF64.try_from 0xFFF0000000000001 (by norm_num) = .error .NonFinite
    ∧ PositiveFiniteF64.try_from 0x8000000000000000 (by norm_num) = .error .Negative :=
  ⟨(try_from_classification 0xFFF0000000000001 (by norm_num)).1.mpr (Or.inl (by decide)),
   (try_from_classification 0x8000000000000000 (by norm_num)).2.1.mpr (by decide)⟩

theorem f64ToRat_zero : f64ToRat 0 = 0 := by
  norm_num [f64ToRat, f64Sign, f64Signif, f64Exp, f64Mant]

theorem f64ToRat_lit1e16 : f64ToRat 0x4341C37937E08000 = 10 ^ 16 := by
  norm_num [f64ToRat, f64Sign, f64Signif, f64Exp, f64Mant]

theorem lt_f64ToRat_lit1em4 : 1 / 10000 < f64ToRat 0x3F1A36E2EB1C432D := by
  norm_num [f64ToRat, f64Sign, f64Signif, f64Exp, f64Mant]

theorem f64ToRat_lit1em4_pred : f64ToRat 0x3F1A36E2EB1C432C < 1 / 10000 := by
  norm_num [f64ToRat, f64Sign, f64Signif, f64Exp, f64Mant]

theorem lit1em4_not_nan : f64IsNan 0x3F1A36E2EB1C432D = false := by decide

theorem lit1e16_not_nan : f64IsNan 0x4341C37937E08000 = false := by decide

theorem zero_not_nan : f64IsNan 0 = false := by decide

/-- The double literal `1e-4` is the smallest positive-sign pattern whose
decoded value reaches `1 / 10000`: on such patterns, comparison against
the literal agrees with comparison against the exact rational. -/
theorem le_lit1em4_iff {b : Nat} (hb : b < 2 ^ 63) :
    f64ToRat 0x3F1A36E2EB1C432D ≤ f64ToRat b ↔ 1 / 10000 ≤ f64ToRat b := by
  constructor
  · intro h
    exact le_trans (le_of_lt lt_f64ToRat_lit1em4) h
  · intro h
    rcases Nat.lt_or_ge b 0x3F1A36E2EB1C432D with h2 | h2
    · have hle : b ≤ 0x3F1A36E2EB1C432C := by omega
      have h3 := f64ToRat_le_of_le (show (0x3F1A36E2EB1C432C : Nat) < 2 ^ 63 by norm_num) hle
      linarith [f64ToRat_lit1em4_pred]
    · exact f64ToRat_le_of_le hb h2

/-- Claim C3: the rendered notation for a valid constrained float is plain
decimal exactly when the value is zero or lies in the half-open range
from one ten-thousandth (inclusive) to ten quadrillion (exclusive), and
exponential otherwise. -/
theorem should_format_float_with_exponent_spec (x : PositiveFiniteF64) :
    should_format_float_with_exponent x.value = false ↔
      (f64ToRat x.value = 0 ∨
        (1 / 10000 ≤ f64ToRat x.value ∧ f64ToRat x.value < 10 ^ 16)) := by
  have hb63 := x.value_lt_two_pow_63
  have hnan : f64IsNan x.value = false := f64IsNan_eq_false_of_finite x.finite
  by_cases hz : f64ToRat x.value = 0
  · have heq : f64Eq x.value 0 = true := by
      simp [f64Eq, hnan, zero_not_nan, f64ToRat_zero, hz]
    simp [should_format_float_with_exponent, heq, hz]
  · have heq : f64Eq x.value 0 = false := by
      simp [f64Eq, f64ToRat_zero, hz]
    have hle : f64Le 0x3F1A36E2EB1C432D x.value = true ↔ 1 / 10000 ≤ f64ToRat x.value := by
      simp [f64Le, hnan, lit1em4_not_nan, decide_eq_true_eq]
      rw [← one_div]
      exact le_lit1em4_iff hb63
    have hlt : f64Lt x.value 0x4341C37937E08000 = true ↔ f64ToRat x.value < 10 ^ 16 := by
      simp [f64Lt, hnan, lit1e16_not_nan, decide_eq_true_eq, f64ToRat_lit1e16]
    simp [should_format_float_with_exponent, heq, hz, Bool.and_eq_true, hle, hlt]

/-- Witness for C3: zero is rendered in plain decimal form. -/
theorem should_format_float_with_exponent_spec_witness :
    should_format_float_with_exponent pffZero.value = false :=
  (should_format_float_with_exponent_spec pffZero).mpr (Or.inl f64ToRat_zero)

theorem paren_data_eq (x : String) :
    ("(" ++ x ++ ")").data = '(' :: x.data ++ [')'] := by
  have h1 : ("(" ++ x).data = '(' :: x.data := by
    rw [String.data_append]; rfl
  rw [String.data_append, h1]

/-- Claim C2: a rendered UnaryOp, BinaryOp or CondOp node always starts
with an opening parenthesis and ends with a closing one. -/
theorem op_node_parenthesized (fmt : FloatFmt) (e : Expr) (h : e.isOpNode = true)
    (r : String) (hr : translate fmt e = some r) :
    r.data.head? = some '(' ∧ r.data.getLast? = some ')' := by
  have key : ∀ x : String, r = "(" ++ x ++ ")" →
      r.data.head? = some '(' ∧ r.data.getLast? = some ')' := by
    rintro x rfl
    rw [paren_data_eq]
    exact ⟨rfl, List.getLast?_concat ('(' :: x.data)⟩
  cases e with
  | unaryOp op v =>
    rcases hv : translate fmt v with _ | s
    · simp [translate, hv] at hr
    · simp [translate, hv] at hr
      exact key (translate_unary_op op ++ s) (by rw [← hr]; simp [String.append_assoc])
  | binaryOp l op rr =>
    rcases hl : translate fmt l with _ | ls
    · simp [translate, hl] at hr
    · rcases hrr : translate fmt rr with _ | rs
      · simp [translate, hl, hrr] at hr
      · simp [translate, hl, hrr] at hr
        exact key (ls ++ " " ++ translate_binary_op op ++ " " ++ rs)
          (by rw [← hr]; simp [String.append_assoc])
  | condOp cond if_true if_false =>
    rcases hc : translate fmt cond with _ | cs
    · simp [translate, hc] at hr
    · rcases ht : translate fmt if_true with _ | ts
      · simp [translate, hc, ht] at hr
      · rcases hf : translate fmt if_false with _ | fs
        · simp [translate, hc, ht, hf] at hr
        · simp [translate, hc, ht, hf] at hr
          exact key (cs ++ " ? " ++ ts ++ " : " ++ fs)
            (by rw [← hr]; simp [String.append_assoc])
  | int x => simp [Expr.isOpNode] at h
  | float x => simp [Expr.isOpNode] at h
  | str x => simp [Expr.isOpNode] at h
  | bool x => simp [Expr.isOpNode] at h
  | enumMember p lab => simp [Expr.isOpNode] at h
  | list items => simp [Expr.isOpNode] at h
  | name n => simp [Expr.isOpNode] at h
  | attrib v a => simp [Expr.isOpNode] at h
  | methodCall v m a => simp [Expr.isOpNode] at h
  | subscript v i => simp [Expr.isOpNode] at h

/-- Witness for C2: the rendering of `not true` is parenthesized. -/
theorem op_node_parenthesized_witness :
    "(not true)".data.head? = some '(' ∧ "(not true)".data.getLast? = some ')' :=
  op_node_parenthesized (constFmt "") (Expr.unaryOp .Not (.bool true)) rfl
    "(not true)" (by decide)

theorem append_dot_zero_not_digits (t : String) :
    is_all_ascii_digits (t ++ ".0") = false := by
  unfold is_all_ascii_digits
  rw [String.data_append, List.all_append]
  have h : ".0".data.all (fun ch => ch.isDigit) = false := by decide
  rw [h, Bool.and_false]

/-- Claim C4: the Float arm renders the formatted text with a `.0` suffix
appended exactly when that text is all ASCII digits, and therefore the
rendering of a Float node never consists solely of ASCII digits. -/
theorem float_render_integer_guard (fmt : FloatFmt) (x : PositiveFiniteF64) :
    (∃ t : String,
      t = (if should_format_float_with_exponent x.value then fmt.expo x.value
           else fmt.plain x.value)
      ∧ translate fmt (.float x) = some (if is_all_ascii_digits t then t ++ ".0" else t))
    ∧ ∀ r : String, translate fmt (.float x) = some r → is_all_ascii_digits r = false := by
  constructor
  · refine ⟨_, rfl, ?_⟩
    simp only [translate]
    split <;> exact (apply_ite some _ _ _).symm
  · intro r hr
    simp only [translate] at hr
    split at hr <;> split at hr
    · rename_i hdig
      simp only [Option.some.injEq] at hr
      rw [← hr]
      exact append_dot_zero_not_digits _
    · rename_i hdig
      simp only [Option.some.injEq] at hr
      rw [← hr]
      simpa using hdig
    · rename_i hdig
      simp only [Option.some.injEq] at hr
      rw [← hr]
      exact append_dot_zero_not_digits _
    · rename_i hdig
      simp only [Option.some.injEq] at hr
      rw [← hr]
      simpa using hdig

theorem pffThirteen_not_nan : f64IsNan pffThirteen.value = false := by decide

theorem should_format_pffThirteen :
    should_format_float_with_exponent pffThirteen.value = false := by
  have h1 : f64Eq pffThirteen.value 0 = false := by
    show f64Eq 0x402A000000000000 0 = false
    simp only [f64Eq, zero_not_nan, (by decide : f64IsNan 0x402A000000000000 = false),
      Bool.not_false, Bool.true_and, decide_eq_false_iff_not]
    norm_num [f64ToRat, f64Sign, f64Signif, f64Exp, f64Mant]
  have h2 : f64Le 0x3F1A36E2EB1C432D pffThirteen.value = true := by
    show f64Le 0x3F1A36E2EB1C432D 0x402A000000000000 = true
    simp only [f64Le, lit1em4_not_nan, (by decide : f64IsNan 0x402A000000000000 = false),
      Bool.not_false, Bool.true_and, decide_eq_true_eq]
    norm_num [f64ToRat, f64Sign, f64Signif, f64Exp, f64Mant]
  have h3 : f64Lt pffThirteen.value 0x4341C37937E08000 = true := by
    show f64Lt 0x402A000000000000 0x4341C37937E08000 = true
    simp only [f64Lt, lit1e16_not_nan, (by decide : f64IsNan 0x402A000000000000 = false),
      Bool.not_false, Bool.true_and, decide_eq_true_eq]
    norm_num [f64ToRat, f64Sign, f64Signif, f64Exp, f64Mant]
  simp [should_format_float_with_exponent, h1, h2, h3]

/-- Witness for C4: the double 13.0, whose plain form is the digit string
13, is rendered 13.0, which is not all digits. -/
theorem float_render_integer_guard_witness :
    is_all_ascii_digits "13.0" = false :=
  (float_render_integer_guard (constFmt "13") pffThirteen).2 "13.0" (by
    simp only [translate, constFmt, should_format_pffThirteen, if_false, Bool.false_eq_true]
    decide)

/-- Claim C5: a string literal without a single quote renders as the
byte-identical text wrapped in single quotes, with no escaping. -/
theorem str_verbatim (fmt : FloatFmt) (s : String)
    (h : s.data.contains singleQuote = false) :
    translate fmt (.str s) = some (singleQuoteStr ++ s ++ singleQuoteStr) := by
  have h2 : singleQuote ∉ s.data := by simpa using h
  simp [translate, h2]

/-- Witness for C5: a two-character string with a backslash renders
verbatim between quotes. -/
theorem str_verbatim_witness :
    translate (constFmt "") (.str "a\\b") =
      some (singleQuoteStr ++ "a\\b" ++ singleQuoteStr) :=
  str_verbatim (constFmt "") "a\\b" (by decide)

mutual

theorem translate_eq_none_of_hasQuotedStr (fmt : FloatFmt) (e : Expr)
    (h : hasQuotedStr e = true) : translate fmt e = none := by
  cases e with
  | int x => simp [hasQuotedStr] at h
  | float x => simp [hasQuotedStr] at h
  | bool x => simp [hasQuotedStr] at h
  | enumMember p lab => simp [hasQuotedStr] at h
  | name n => simp [hasQuotedStr] at h
  | str s =>
    simp only [hasQuotedStr] at h
    have h2 : singleQuote ∈ s.data := by simpa using h
    simp [translate, h2]
  | list items =>
    simp only [hasQuotedStr] at h
    simp [translate, translateList_eq_none_of_hasQuotedStrList fmt items h]
  | attrib v a =>
    simp only [hasQuotedStr] at h
    simp [translate, translate_eq_none_of_hasQuotedStr fmt v h]
  | methodCall v m args =>
    simp only [hasQuotedStr, Bool.or_eq_true] at h
    rcases h with h | h
    · simp [translate, translate_eq_none_of_hasQuotedStr fmt v h]
    · rcases hv : translate fmt v with _ | sv
      · simp [translate, hv]
      · simp [translate, hv, translateList_eq_none_of_hasQuotedStrList fmt args h]
  | unaryOp op v =>
    simp only [hasQuotedStr] at h
    simp [translate, translate_eq_none_of_hasQuotedStr fmt v h]
  | binaryOp l op rr =>
    simp only [hasQuotedStr, Bool.or_eq_true] at h
    rcases h with h | h
    · simp [translate, translate_eq_none_of_hasQuotedStr fmt l h]
    · rcases hl : translate fmt l with _ | sl
      · simp [translate, hl]
      · simp [translate, hl, translate_eq_none_of_hasQuotedStr fmt rr h]
  | condOp c t f =>
    simp only [hasQuotedStr, Bool.or_eq_true] at h
    rcases h with (h | h) | h
    · simp [translate, translate_eq_none_of_hasQuotedStr fmt c h]
    · rcases hc : translate fmt c with _ | sc
      · simp [translate, hc]
      · simp [translate, hc, translate_eq_none_of_hasQuotedStr fmt t h]
    · rcases hc : translate fmt c with _ | sc
      · simp [translate, hc]
      · rcases ht : translate fmt t with _ | st
        · simp [translate, hc, ht]
        · simp [translate, hc, ht, translate_eq_none_of_hasQuotedStr fmt f h]
  | subscript v i =>
    simp only [hasQuotedStr, Bool.or_eq_true] at h
    rcases h with h | h
    · simp [translate, translate_eq_none_of_hasQuotedStr fmt v h]
    · rcases hv : translate fmt v with _ | sv
      · simp [translate, hv]
      · simp [translate, hv, translate_eq_none_of_hasQuotedStr fmt i h]
termination_by sizeOf e

theorem translateList_eq_none_of_hasQuotedStrList (fmt : FloatFmt) (es : List Expr)
    (h : hasQuotedStrList es = true) : translateList fmt es = none := by
  cases es with
  | nil => simp [hasQuotedStrList] at h
  | cons e es =>
    simp only [hasQuotedStrList, Bool.or_eq_true] at h
    rcases h with h | h
    · simp [translateList, translate_eq_none_of_hasQuotedStr fmt e h]
    · rcases he : translate fmt e with _ | se
      · simp [translateList, he]
      · simp [translateList, he, translateList_eq_none_of_hasQuotedStrList fmt es h]
termination_by sizeOf es

end

/-- Claim C6: rendering any tree containing a string literal with an
embedded single quote is rejected outright (modelled as `none`): no
string in which the quote was dropped, escaped or re-encoded is ever
returned. -/
theorem render_rejects_embedded_quote (fmt : FloatFmt) (e : Expr)
    (h : hasQuotedStr e = true) : translate fmt e = none :=
  translate_eq_none_of_hasQuotedStr fmt e h

/-- Witness for C6: a list containing a quoted string literal fails to
render. -/
theorem render_rejects_embedded_quote_witness :
    translate (constFmt "") (.list [.int 1, .str singleQuoteStr]) = none :=
  render_rejects_embedded_quote (constFmt "") (.list [.int 1, .str singleQuoteStr])
    (by decide)

mutual

theorem translate_isSome_of_not_hasQuotedStr (fmt : FloatFmt) (e : Expr)
    (h : hasQuotedStr e = false) : ∃ s, translate fmt e = some s := by
  cases e with
  | int x => exact ⟨_, rfl⟩
  | float x =>
    simp only [translate]
    split <;> split <;> exact ⟨_, rfl⟩
  | str s =>
    simp only [hasQuotedStr] at h
    have h2 : singleQuote ∉ s.data := by simpa using h
    exact ⟨singleQuoteStr ++ s ++ singleQuoteStr, by simp [translate, h2]⟩
  | bool x => exact ⟨_, rfl⟩
  | enumMember p lab => exact ⟨_, rfl⟩
  | name n => exact ⟨_, rfl⟩
  | list items =>
    simp only [hasQuotedStr] at h
    obtain ⟨l, hl⟩ := translateList_isSome_of_not_hasQuotedStrList fmt items h
    exact ⟨"[" ++ String.intercalate ", " l ++ "]", by simp [translate, hl]⟩
  | attrib v a =>
    simp only [hasQuotedStr] at h
    obtain ⟨sv, hv⟩ := translate_isSome_of_not_hasQuotedStr fmt v h
    exact ⟨sv ++ "." ++ a, by simp [translate, hv]⟩
  | methodCall v m args =>
    simp only [hasQuotedStr, Bool.or_eq_false_iff] at h
    obtain ⟨sv, hv⟩ := translate_isSome_of_not_hasQuotedStr fmt v h.1
    obtain ⟨l, hl⟩ := translateList_isSome_of_not_hasQuotedStrList fmt args h.2
    exact ⟨sv ++ "." ++ m ++ "(" ++ String.intercalate ", " l ++ ")",
      by simp [translate, hv, hl]⟩
  | unaryOp op v =>
    simp only [hasQuotedStr] at h
    obtain ⟨sv, hv⟩ := translate_isSome_of_not_hasQuotedStr fmt v h
    exact ⟨"(" ++ translate_unary_op op ++ sv ++ ")", by simp [translate, hv]⟩
  | binaryOp l op rr =>
    simp only [hasQuotedStr, Bool.or_eq_false_iff] at h
    obtain ⟨sl, hl⟩ := translate_isSome_of_not_hasQuotedStr fmt l h.1
    obtain ⟨sr, hrr⟩ := translate_isSome_of_not_hasQuotedStr fmt rr h.2
    exact ⟨"(" ++ sl ++ " " ++ translate_binary_op op ++ " " ++ sr ++ ")",
      by simp [translate, hl, hrr]⟩
  | condOp c t f =>
    simp only [hasQuotedStr, Bool.or_eq_false_iff] at h
    obtain ⟨sc, hc⟩ := translate_isSome_of_not_hasQuotedStr fmt c h.1.1
    obtain ⟨st, ht⟩ := translate_isSome_of_not_hasQuotedStr fmt t h.1.2
    obtain ⟨sf, hf⟩ := translate_isSome_of_not_hasQuotedStr fmt f h.2
    exact ⟨"(" ++ sc ++ " ? " ++ st ++ " : " ++ sf ++ ")",
      by simp [translate, hc, ht, hf]⟩
  | subscript v i =>
    simp only [hasQuotedStr, Bool.or_eq_false_iff] at h
    obtain ⟨sv, hv⟩ := translate_isSome_of_not_hasQuotedStr fmt v h.1
    obtain ⟨si, hi⟩ := translate_isSome_of_not_hasQuotedStr fmt i h.2
    exact ⟨sv ++ "[" ++ si ++ "]", by simp [translate, hv, hi]⟩
termination_by sizeOf e

theorem translateList_isSome_of_not_hasQuotedStrList (fmt : FloatFmt) (es : List Expr)
    (h : hasQuotedStrList es = false) : ∃ l, translateList fmt es = some l := by
  cases es with
  | nil => exact ⟨_, rfl⟩
  | cons e es =>
    simp only [hasQuotedStrList, Bool.or_eq_false_iff] at h
    obtain ⟨se, he⟩ := translate_isSome_of_not_hasQuotedStr fmt e h.1
    obtain ⟨l, hl⟩ := translateList_isSome_of_not_hasQuotedStrList fmt es h.2
    exact ⟨se :: l, by simp [translateList, he, hl]⟩
termination_by sizeOf es

end

/-- Claim C7: on any tree in which no string literal contains a single
quote, rendering succeeds with a complete string: the quote check is the
only failure point. -/
theorem render_total_without_quotes (fmt : FloatFmt) (e : Expr)
    (h : hasQuotedStr e = false) : ∃ s, translate fmt e = some s :=
  translate_isSome_of_not_hasQuotedStr fmt e h

/-- Witness for C7: a quote-free tree with every other failure-prone
feature renders successfully. -/
theorem render_total_without_quotes_witness :
    ∃ s, translate (constFmt "")
      (.methodCall (.list [.str "ab", .name "x"]) "substring" [.int 2]) = some s :=
  render_total_without_quotes (constFmt "")
    (.methodCall (.list [.str "ab", .name "x"]) "substring" [.int 2]) (by decide)

/-- Claim C8: on constructed values, comparison is total (the underlying
partial comparison always yields an ordering), equality holds exactly on
bit-for-bit equal representations, and equal values hash identically
under every hasher. -/
theorem float_key_semantics (a b : PositiveFiniteF64) :
    (∃ o, PositiveFiniteF64.cmp a b = some o)
    ∧ (PositiveFiniteF64.eqv a b = true ↔ a.value = b.value)
    ∧ (PositiveFiniteF64.eqv a b = true →
        ∀ state : Nat → Nat, a.hash state = b.hash state) := by
  have hna : f64IsNan a.value = false := f64IsNan_eq_false_of_finite a.finite
  have hnb : f64IsNan b.value = false := f64IsNan_eq_false_of_finite b.finite
  have heqv : PositiveFiniteF64.eqv a b = true ↔ a.value = b.value := by
    simp only [PositiveFiniteF64.eqv, f64Eq, hna, hnb, Bool.not_false, Bool.true_and,
      decide_eq_true_eq]
    constructor
    · exact fun h => f64ToRat_inj a.value_lt_two_pow_63 b.value_lt_two_pow_63 h
    · intro h
      rw [h]
  refine ⟨⟨compare (f64ToRat a.value) (f64ToRat b.value), ?_⟩, heqv, ?_⟩
  · simp [PositiveFiniteF64.cmp, f64Cmp, hna, hnb]
  · intro h state
    simp [PositiveFiniteF64.hash, heqv.mp h]

/-- Witness for C8: 13.0 equals itself and hashes identically to itself. -/
theorem float_key_semantics_witness :
    PositiveFiniteF64.eqv pffThirteen pffThirteen = true
    ∧ pffThirteen.hash id = pffThirteen.hash id :=
  have h := float_key_semantics pffThirteen pffThirteen
  ⟨h.2.1.mpr rfl, h.2.2 (h.2.1.mpr rfl) id⟩

/-- Claim C9: two literal scenarios; no parentheses appear around the
bases of Attribute and Subscript. -/
theorem literal_scenarios (fmt : FloatFmt) :
    translate fmt (.binaryOp (.bool false) .Eq
        (.condOp (.bool true) (.attrib (.name "_io") "eof") (.bool false)))
      = some "(false == (true ? _io.eof : false))"
    ∧ translate fmt (.subscript (.attrib (.name "cont") "items") (.int 0))
      = some "cont.items[0]" :=
  ⟨rfl, rfl⟩

/-- Claim C10: an EnumMember renders as the path segments followed by the
label joined by the scope separator; in particular an empty path yields
the bare label with no separator. -/
theorem enum_member_join (fmt : FloatFmt) (path : List String) (label : String) :
    translate fmt (.enumMember path label) =
      some (String.intercalate "::" (path ++ [label]))
    ∧ translate fmt (.enumMember [] label) = some label :=
  ⟨rfl, rfl⟩

end KaitaiTestgen
